import Mathlib

/-!
Verification development for the enclosing-wall visibility overlay subsystem
of robocasa (`robocasa/wrappers/enclosing_wall_render_wrapper.py`).

Python strings are modelled as lists of characters (a Python `str` is a
sequence of code points).  Floats that are only stored, written and compared
(the alpha channel of `geom_rgba`) are modelled as rationals.  The MuJoCo
model handle is modelled by the fields the wrapper reads: body count, body
names, body parent indices, geom count, geom owning bodies, geom names; the
mutable alpha channel `geom_rgba[:, 3]` is modelled as a function from geom
index to rational, threaded through each operation.
-/

namespace EnclosingWall

/-- Python `s.startswith(p)` on character sequences: `startswith s p` is
true when `p` is an initial segment of `s`. -/
def startswith : List Char → List Char → Bool
  | _, [] => true
  | [], _ :: _ => false
  | c :: s, p :: ps => c == p && startswith s ps

/-- Python `s.endswith(p)` on character sequences: true when `p` is a final
segment of `s`. -/
def endswith (s p : List Char) : Bool :=
  startswith s.reverse p.reverse

/-- The three-rule match used for both body and geom names in
`_match_geom_ids` (lines 229-233 and 259-263 of the source): exact equality,
prefix with an underscore separator, or suffix with an underscore separator. -/
def name_matches (s ename : List Char) : Bool :=
  s == ename || startswith s (ename ++ ['_']) || endswith s (['_'] ++ ename)

/-- A Python value as it can appear for the `enclosing_wall` key in layout
YAML: the source tests the value with `is True`, so the exact runtime value
matters, not its truthiness. -/
inductive PyVal where
  | vnone : PyVal
  | vbool : Bool → PyVal
  | vint : Int → PyVal
  | vstr : List Char → PyVal
deriving DecidableEq

/-- One entry of the `room.walls` collection of a layout YAML file: a name
and an optional `enclosing_wall` flag (absent key modelled as `none`). -/
structure WallRecord where
  name : List Char
  enclosing_wall : Option PyVal
deriving DecidableEq

/-- The `room` mapping of a layout YAML file; `walls` may be absent. -/
structure Room where
  walls : Option (List WallRecord)
deriving DecidableEq

/-- A parsed layout YAML file; `room` may be absent. -/
structure LayoutData where
  room : Option Room
deriving DecidableEq

/-- The walls collection used by `_get_enclosing_wall_names_from_layout`:
`(layout_data.get("room") or {}).get("walls") or []`. -/
def wallsOf (ld : LayoutData) : List WallRecord :=
  match ld.room with
  | Option.none => []
  | Option.some r => r.walls.getD []

/-- Lines 196-197 of the source: the names of wall records whose
`enclosing_wall` value satisfies `w.get("enclosing_wall", False) is True`,
i.e. the key is present and holds exactly the boolean `True`. -/
def get_enclosing_wall_names_from_layout (ld : LayoutData) : List (List Char) :=
  ((wallsOf ld).filter
      (fun w => decide (w.enclosing_wall = Option.some (PyVal.vbool true)))).map
    (fun w => w.name)

/-- The static part of a MuJoCo model as read by `_match_geom_ids`:
body count, per-body name, per-body parent index (root sentinel is a
negative value), geom count, per-geom owning body, per-geom name. -/
structure MjModel where
  nbody : Nat
  body_id2name : Nat → Option (List Char)
  body_parentid : Nat → Int
  ngeom : Nat
  geom_bodyid : Nat → Nat
  geom_id2name : Nat → Option (List Char)

/-- Whether body `b` of the model matches one of the enclosing wall names
(lines 224-235): the body must have a name and the name must satisfy one of
the three match rules for some wall name. -/
def body_matched (m : MjModel) (names : List (List Char)) (b : Nat) : Bool :=
  match m.body_id2name b with
  | Option.none => false
  | Option.some bn => names.any (fun ename => name_matches bn ename)

/-- The initial working body set of `_match_geom_ids`: all bodies in range
whose name matches an enclosing wall name. -/
def matched_bodies (m : MjModel) (names : List (List Char)) : Finset Nat :=
  (Finset.range m.nbody).filter (fun b => body_matched m names b = true)

/-- One sequential sweep of the descendant-closure loop body (lines 241-247)
over a list of body indices: a body already in the set is skipped; a body
whose parent index is nonnegative and in the set is inserted and the
`added` flag is raised.  Bodies inserted earlier in the same sweep are
visible to later bodies of the sweep, as in the Python loop. -/
def passAux (m : MjModel) : List Nat → Finset Nat × Bool → Finset Nat × Bool
  | [], acc => acc
  | b :: bs, (s, added) =>
    if b ∈ s then passAux m bs (s, added)
    else if 0 ≤ m.body_parentid b ∧ (m.body_parentid b).toNat ∈ s then
      passAux m bs (insert b s, true)
    else passAux m bs (s, added)

/-- One full pass of the descendant-closure loop over all bodies, starting
with a lowered `added` flag (lines 239-247). -/
def closurePass (m : MjModel) (s : Finset Nat) : Finset Nat × Bool :=
  passAux m (List.range m.nbody) (s, false)

/-- The `while added` loop of lines 238-247, with explicit fuel; the loop
stops as soon as a full pass raises no flag.  Fuel `m.nbody + 1` is proved
sufficient below (`closurePass_closureLoop_eq_false`). -/
def closureLoop (m : MjModel) : Nat → Finset Nat → Finset Nat
  | 0, s => s
  | fuel + 1, s =>
    let r := closurePass m s
    if r.2 then closureLoop m fuel r.1 else r.1

/-- The working body set after the descendant-closure loop of
`_match_geom_ids` has run to its fixed point. -/
def body_closure (m : MjModel) (init : Finset Nat) : Finset Nat :=
  closureLoop m (m.nbody + 1) init

/-- Whether geom `i` is retained by the geom sweep of lines 250-265: its
owning body is in the working set, or its own name matches an enclosing
wall name. -/
def geom_kept (m : MjModel) (names : List (List Char)) (bids : Finset Nat)
    (i : Nat) : Bool :=
  decide (m.geom_bodyid i ∈ bids) ||
    (match m.geom_id2name i with
     | Option.none => false
     | Option.some gname => names.any (fun ename => name_matches gname ename))

/-- `_match_geom_ids` (lines 200-266): geom indices belonging to enclosing
walls.  Empty name list short-circuits to the empty array; otherwise match
bodies, close under descendants, and sweep the geoms. -/
def match_geom_ids (m : MjModel) (names : List (List Char)) : List Nat :=
  if names = [] then []
  else
    let bids := body_closure m (matched_bodies m names)
    (List.range m.ngeom).filter (fun i => geom_kept m names bids i)

/-- A live MuJoCo model handle: its static structure plus an identity token
standing for the CPython `id(model)` used at line 170 to detect reloads. -/
structure LiveModel where
  ptr : Nat
  mj : MjModel

/-- The `base.sim` object: its `model` attribute may be `None`
(`getattr(base.sim, "model", None)` at line 165). -/
structure SimCtx where
  model : Option LiveModel

/-- The static context the wrapper reads from the unwrapped base env:
`base.sim` (absent attribute and `None` collapsed to `none`), the
`layout_id` attribute, and the layout registry that
`_get_enclosing_wall_names_from_layout` consults through
`SceneRegistry.get_layout_path` + YAML parsing (external collaborators,
modelled as a total map from layout id to parsed layout data). -/
structure EnvCtx where
  sim : Option SimCtx
  layout_id : Option Int
  layouts : Int → LayoutData

/-- The live model reachable from the context, when both `base.sim` and
`base.sim.model` are present. -/
def ctxModel (ctx : EnvCtx) : Option LiveModel :=
  match ctx.sim with
  | Option.none => Option.none
  | Option.some sc => sc.model

/-- The mutable fields of `EnclosingWallRenderWrapper` set up in `__init__`
(lines 109-116): overlay alpha, enabled flag, cached geom id array
(`None` before resolution), saved-alpha dict (insertion-ordered association
list), and the last-seen model identity token. -/
structure WrapperState where
  alpha : ℚ
  enabled : Bool
  geom_ids : Option (List Nat)
  saved_alpha : List (Nat × ℚ)
  last_model_ptr : Option Nat

/-- A wrapper-visible snapshot of the mutable world: the live alpha channel
`sim.model.geom_rgba[:, 3]` and the wrapper's own fields. -/
def OverlayState : Type := (Nat → ℚ) × WrapperState

/-- `_get_enclosing_wall_geom_ids` (lines 268-290): return the cached ids if
present; cache the empty array when `sim` or `layout_id` is unavailable or
the model is `None`; otherwise resolve through the layout registry and
`_match_geom_ids` and cache the result. -/
def get_enclosing_wall_geom_ids (ctx : EnvCtx) (w : WrapperState) :
    List Nat × WrapperState :=
  match w.geom_ids with
  | Option.some g => (g, w)
  | Option.none =>
    match ctx.sim, ctx.layout_id with
    | Option.none, _ => ([], { w with geom_ids := Option.some [] })
    | Option.some _, Option.none => ([], { w with geom_ids := Option.some [] })
    | Option.some sc, Option.some lid =>
      let names := get_enclosing_wall_names_from_layout (ctx.layouts lid)
      match sc.model with
      | Option.none => ([], { w with geom_ids := Option.some [] })
      | Option.some lm =>
        let g := match_geom_ids lm.mj names
        (g, { w with geom_ids := Option.some g })

/-- The geometry set the resolver produces for the current context when
nothing is cached: empty when `sim`, the model, or `layout_id` is missing,
otherwise the `_match_geom_ids` result for the layout's enclosing walls. -/
def resolvedGeoms (ctx : EnvCtx) : List Nat :=
  match ctx.sim, ctx.layout_id with
  | Option.some sc, Option.some lid =>
    (match sc.model with
     | Option.none => []
     | Option.some lm =>
       match_geom_ids lm.mj (get_enclosing_wall_names_from_layout (ctx.layouts lid)))
  | _, _ => []

/-- Lines 176-189 of `_apply_or_restore`, after the model has been obtained
and the identity check has run: resolve (or reuse) the geom ids; bail out
when the set is empty; when enabled, save each unsaved original alpha and
write the overlay alpha to every resolved geom; when disabled, write 1.0 to
every resolved geom and clear the save map. -/
def apply_write (ctx : EnvCtx) (alphas : Nat → ℚ) (w1 : WrapperState) :
    OverlayState :=
  let r := get_enclosing_wall_geom_ids ctx w1
  let gids := r.1
  let w2 := r.2
  if gids = [] then (alphas, w2)
  else if w2.enabled then
    let saved := gids.foldl
      (fun sa gi =>
        if (sa.lookup gi).isSome then sa else sa ++ [(gi, alphas gi)])
      w2.saved_alpha
    (fun i => if gids.contains i then w2.alpha else alphas i,
     { w2 with saved_alpha := saved })
  else
    (fun i => if gids.contains i then 1 else alphas i,
     { w2 with saved_alpha := [] })

/-- `_apply_or_restore` (lines 160-189): bail out when `sim` or the model is
unavailable; invalidate the caches on a model identity change (lines
169-174); then run the resolve-and-write stage. -/
def apply_or_restore (ctx : EnvCtx) (st : OverlayState) : OverlayState :=
  match ctx.sim with
  | Option.none => st
  | Option.some sc =>
    match sc.model with
    | Option.none => st
    | Option.some lm =>
      let w1 :=
        if st.2.last_model_ptr = Option.some lm.ptr then st.2
        else { st.2 with geom_ids := Option.none, saved_alpha := [],
                         last_model_ptr := Option.some lm.ptr }
      apply_write ctx st.1 w1

/-- `set_enabled` (lines 135-140): no-op when the requested state equals the
current one, otherwise flip the flag and run apply-or-restore. -/
def set_enabled (ctx : EnvCtx) (st : OverlayState) (enabled : Bool) :
    OverlayState :=
  if enabled = st.2.enabled then st
  else apply_or_restore ctx (st.1, { st.2 with enabled := enabled })

/-- `toggle` (lines 132-133). -/
def toggle (ctx : EnvCtx) (st : OverlayState) : OverlayState :=
  set_enabled ctx st (!st.2.enabled)

/-- `visualize` (lines 142-148): the wrapped env's own `visualize` may touch
the alpha buffer (modelled by the arbitrary mutation `envVis`), then
apply-or-restore runs. -/
def visualize (ctx : EnvCtx) (envVis : (Nat → ℚ) → (Nat → ℚ))
    (st : OverlayState) : OverlayState :=
  apply_or_restore ctx (envVis st.1, st.2)

/-- `reset` (lines 150-158): the wrapped env's reset yields a fresh context
and alpha buffer; the caches and identity token are cleared, and
apply-or-restore runs again only when the overlay is enabled. -/
def resetW (ctx2 : EnvCtx) (alphas2 : Nat → ℚ) (w : WrapperState) :
    OverlayState :=
  let w2 := { w with geom_ids := Option.none, saved_alpha := [],
                     last_model_ptr := Option.none }
  if w2.enabled then apply_or_restore ctx2 (alphas2, w2) else (alphas2, w2)

/-- `__init__` (lines 109-116): fields start disabled with empty caches,
then `set_enabled(bool(enabled))` runs. -/
def wrapper_init (ctx : EnvCtx) (alphas : Nat → ℚ) (alpha : ℚ)
    (enabled : Bool) : OverlayState :=
  set_enabled ctx
    (alphas,
     { alpha := alpha, enabled := false, geom_ids := Option.none,
       saved_alpha := [], last_model_ptr := Option.none })
    enabled

/-- The state visible to `EnclosingWallHotkeyHandler.consume_pending`: the
two pending-request booleans living on the shared env object, and the
overlay state of the wrapper found in the chain (`none` when no
`EnclosingWallRenderWrapper` is present). -/
structure LoopState where
  force_opaque_requested : Bool
  toggle_requested : Bool
  overlay : Option OverlayState

/-- `consume_pending` (lines 68-93): return false when neither flag is set;
when a force-opaque request is pending, disable the overlay, clear both
flags (force-off wins over a simultaneously queued toggle), redraw and
return true; otherwise consume the toggle request.  The best-effort redraw
(`_refresh_visualization_and_redraw`) may re-enter the wrapper through
`visualize`; its effect on the overlay state is modelled by the function
`redraw`. -/
def consume_pending (ctx : EnvCtx) (redraw : OverlayState → OverlayState)
    (ls : LoopState) : LoopState × Bool :=
  if ls.force_opaque_requested = false ∧ ls.toggle_requested = false then
    (ls, false)
  else if ls.force_opaque_requested then
    ({ force_opaque_requested := false, toggle_requested := false,
       overlay := (ls.overlay.map (fun ov => set_enabled ctx ov false)).map redraw },
     true)
  else
    ({ ls with toggle_requested := false,
               overlay := (ls.overlay.map (fun ov => toggle ctx ov)).map redraw },
     true)

/-- The states an `EnclosingWallRenderWrapper` can reach: the state produced
by `__init__`, and closure under `set_enabled`, `toggle`, `visualize` (with
an arbitrary buffer mutation by the wrapped env) and `reset` (with an
arbitrary fresh context and buffer). -/
inductive Reach : EnvCtx → OverlayState → Prop where
  | init (ctx : EnvCtx) (alphas : Nat → ℚ) (alpha : ℚ) (enabled : Bool) :
      Reach ctx (wrapper_init ctx alphas alpha enabled)
  | set (ctx : EnvCtx) (st : OverlayState) (e : Bool) :
      Reach ctx st → Reach ctx (set_enabled ctx st e)
  | tog (ctx : EnvCtx) (st : OverlayState) :
      Reach ctx st → Reach ctx (toggle ctx st)
  | vis (ctx : EnvCtx) (st : OverlayState) (envVis : (Nat → ℚ) → (Nat → ℚ)) :
      Reach ctx st → Reach ctx (visualize ctx envVis st)
  | rst (ctx ctx2 : EnvCtx) (st : OverlayState) (alphas2 : Nat → ℚ) :
      Reach ctx st → Reach ctx2 (resetW ctx2 alphas2 st.2)

/-- The working body set after k full passes of the descendant-closure
sweep, used to state termination of the while loop. -/
def passIter (m : MjModel) (s : Finset Nat) : Nat → Finset Nat
  | 0 => s
  | k + 1 => (closurePass m (passIter m s k)).1

/-- Body b is a descendant of body a in the parent-pointer tree: its parent
chain reaches a through bodies that are all in range. -/
inductive Descendant (m : MjModel) (a : Nat) : Nat → Prop where
  | child (b : Nat) (hb : b < m.nbody) (hp : m.body_parentid b = Int.ofNat a) :
      Descendant m a b
  | step (b c : Nat) (hd : Descendant m a b) (hc : c < m.nbody)
      (hp : m.body_parentid c = Int.ofNat b) : Descendant m a c

/-- The overlay invariant maintained by every reachable state: whenever the
cached resolved geometry set is populated, a nonempty cache implies a live
model is present, and every cached geom index carries the overlay alpha
while enabled and 1.0 while disabled. -/
def Inv (ctx : EnvCtx) (st : OverlayState) : Prop :=
  ∀ g, st.2.geom_ids = Option.some g →
    (g ≠ [] → ∃ lm, ctxModel ctx = Option.some lm) ∧
    ∀ i ∈ g, st.1 i = if st.2.enabled then st.2.alpha else 1

/-- A layout whose single wall is flagged enclosing with exactly True. -/
def exampleLayout : LayoutData :=
  { room := Option.some
      { walls := Option.some
          [{ name := "wall".data,
             enclosing_wall := Option.some (PyVal.vbool true) }] } }

/-- A layout whose single wall carries a truthy but non-True flag value. -/
def truthyLayout : LayoutData :=
  { room := Option.some
      { walls := Option.some
          [{ name := "wall".data, enclosing_wall := Option.some (PyVal.vint 1) }] } }

/-- A three-body model: body 0 is named wall, body 1 is its child, body 2 is
its grandchild, and the single geom 0 is owned by body 2. -/
def exampleMj : MjModel where
  nbody := 3
  body_id2name := fun b => if b = 0 then Option.some "wall".data else Option.none
  body_parentid := fun b => if b = 0 then (-1 : Int) else Int.ofNat (b - 1)
  ngeom := 1
  geom_bodyid := fun _ => 2
  geom_id2name := fun _ => Option.none

/-- A context exposing a live model (identity token 0) and a layout id
resolving to the example layout. -/
def exampleCtx : EnvCtx where
  sim := Option.some { model := Option.some { ptr := 0, mj := exampleMj } }
  layout_id := Option.some 0
  layouts := fun _ => exampleLayout

/-- A context with no sim and no layout id. -/
def emptyCtx : EnvCtx where
  sim := Option.none
  layout_id := Option.none
  layouts := fun _ => { room := Option.none }

/-- An alpha buffer in which every geom starts at one half. -/
def exampleAlphas : Nat → ℚ := fun _ => 1 / 2

/-- A freshly constructed wrapper-state record with overlay alpha 1/10. -/
def freshW : WrapperState :=
  { alpha := 1 / 10, enabled := false, geom_ids := Option.none,
    saved_alpha := [], last_model_ptr := Option.none }

/-- A wrapper state holding a stale cache and identity token 99, as left by
an earlier model that has since been replaced. -/
def staleW : WrapperState :=
  { alpha := 1 / 10, enabled := true, geom_ids := Option.some [5],
    saved_alpha := [(5, 7)], last_model_ptr := Option.some 99 }

end EnclosingWall

namespace EnclosingWall

theorem startswith_iff (s p : List Char) :
    startswith s p = true ↔ ∃ t, s = p ++ t := by
  induction p generalizing s with
  | nil =>
    constructor
    · intro _
      exact ⟨s, rfl⟩
    · intro _
      cases s <;> rfl
  | cons c ps ih =>
    cases s with
    | nil =>
      simp [startswith]
    | cons a as =>
      constructor
      · intro h
        simp only [startswith, Bool.and_eq_true, beq_iff_eq] at h
        obtain ⟨t, ht⟩ := (ih as).mp h.2
        exact ⟨t, by simp [h.1, ht]⟩
      · rintro ⟨t, ht⟩
        simp only [List.cons_append, List.cons.injEq] at ht
        simp only [startswith, Bool.and_eq_true, beq_iff_eq]
        exact ⟨ht.1, (ih as).mpr ⟨t, ht.2⟩⟩

theorem endswith_iff (s p : List Char) :
    endswith s p = true ↔ ∃ t, s = t ++ p := by
  unfold endswith
  rw [startswith_iff]
  constructor
  · rintro ⟨t, ht⟩
    refine ⟨t.reverse, ?_⟩
    have h2 := congrArg List.reverse ht
    simpa [List.reverse_append] using h2
  · rintro ⟨t, rfl⟩
    exact ⟨t.reverse, by simp [List.reverse_append]⟩

/-- Claim C2: the matching predicate used by the geometry resolver holds for
name s and wall name w exactly when s equals w, or s starts with w followed
by an underscore, or s ends with an underscore followed by w; in particular
a body named wall_1 matches wall name wall while a body named wall1 does
not. -/
theorem c2_match_predicate :
    (∀ s w : List Char, name_matches s w = true ↔
        s = w ∨ (∃ t, s = w ++ '_' :: t) ∨ (∃ t, s = t ++ '_' :: w)) ∧
    name_matches "wall_1".data "wall".data = true ∧
    name_matches "wall1".data "wall".data = false := by
  refine ⟨fun s w => ?_, by decide, by decide⟩
  simp only [name_matches, Bool.or_eq_true, beq_iff_eq, startswith_iff,
    endswith_iff, List.append_assoc, List.singleton_append]
  exact or_assoc

end EnclosingWall

namespace EnclosingWall

theorem passAux_mono (m : MjModel) (l : List Nat) (s : Finset Nat) (a : Bool) :
    s ⊆ (passAux m l (s, a)).1 := by
  induction l generalizing s a with
  | nil => simp [passAux]
  | cons b bs ih =>
    by_cases hb : b ∈ s
    · simpa [passAux, hb] using ih s a
    · by_cases hc : 0 ≤ m.body_parentid b ∧ (m.body_parentid b).toNat ∈ s
      · have h2 := ih (insert b s) true
        intro x hx
        simp only [passAux, if_neg hb, if_pos hc]
        exact h2 (Finset.mem_insert_of_mem hx)
      · simpa [passAux, hb, hc] using ih s a

theorem passAux_subset (m : MjModel) (l : List Nat) (s : Finset Nat) (a : Bool) :
    (passAux m l (s, a)).1 ⊆ s ∪ l.toFinset := by
  induction l generalizing s a with
  | nil => simp [passAux]
  | cons b bs ih =>
    by_cases hb : b ∈ s
    · simp only [passAux, if_pos hb]
      refine (ih s a).trans ?_
      intro x hx
      rcases Finset.mem_union.mp hx with h | h
      · exact Finset.mem_union_left _ h
      · exact Finset.mem_union_right _ (by simp [List.toFinset_cons, h])
    · by_cases hc : 0 ≤ m.body_parentid b ∧ (m.body_parentid b).toNat ∈ s
      · simp only [passAux, if_neg hb, if_pos hc]
        refine (ih (insert b s) true).trans ?_
        intro x hx
        rcases Finset.mem_union.mp hx with h | h
        · rcases Finset.mem_insert.mp h with h2 | h2
          · exact Finset.mem_union_right _ (by simp [List.toFinset_cons, h2])
          · exact Finset.mem_union_left _ h2
        · exact Finset.mem_union_right _ (by simp [List.toFinset_cons, h])
      · simp only [passAux, if_neg hb, if_neg hc]
        refine (ih s a).trans ?_
        intro x hx
        rcases Finset.mem_union.mp hx with h | h
        · exact Finset.mem_union_left _ h
        · exact Finset.mem_union_right _ (by simp [List.toFinset_cons, h])

theorem passAux_flag_true (m : MjModel) (l : List Nat) (s : Finset Nat) :
    (passAux m l (s, true)).2 = true := by
  induction l generalizing s with
  | nil => rfl
  | cons b bs ih =>
    by_cases hb : b ∈ s
    · simpa [passAux, hb] using ih s
    · by_cases hc : 0 ≤ m.body_parentid b ∧ (m.body_parentid b).toNat ∈ s
      · simpa [passAux, hb, hc] using ih (insert b s)
      · simpa [passAux, hb, hc] using ih s

theorem passAux_unproductive (m : MjModel) (l : List Nat) (s : Finset Nat) :
    (passAux m l (s, false)).2 = false →
    (passAux m l (s, false)).1 = s ∧
      ∀ b ∈ l, 0 ≤ m.body_parentid b → (m.body_parentid b).toNat ∈ s → b ∈ s := by
  induction l generalizing s with
  | nil =>
    intro _
    exact ⟨rfl, by simp⟩
  | cons b bs ih =>
    intro h
    by_cases hb : b ∈ s
    · simp only [passAux, if_pos hb] at h
      obtain ⟨h1, h2⟩ := ih s h
      refine ⟨by simpa [passAux, hb] using h1, ?_⟩
      intro x hx hp hm
      rcases List.mem_cons.mp hx with rfl | hx2
      · exact hb
      · exact h2 x hx2 hp hm
    · by_cases hc : 0 ≤ m.body_parentid b ∧ (m.body_parentid b).toNat ∈ s
      · simp only [passAux, if_neg hb, if_pos hc] at h
        rw [passAux_flag_true] at h
        exact absurd h (by simp)
      · simp only [passAux, if_neg hb, if_neg hc] at h
        obtain ⟨h1, h2⟩ := ih s h
        refine ⟨by simpa [passAux, hb, hc] using h1, ?_⟩
        intro x hx hp hm
        rcases List.mem_cons.mp hx with rfl | hx2
        · exact absurd ⟨hp, hm⟩ hc
        · exact h2 x hx2 hp hm

theorem passAux_productive_card (m : MjModel) (l : List Nat) (s : Finset Nat) :
    (passAux m l (s, false)).2 = true →
    s.card < (passAux m l (s, false)).1.card := by
  induction l generalizing s with
  | nil =>
    intro h
    exact absurd h (by simp [passAux])
  | cons b bs ih =>
    intro h
    by_cases hb : b ∈ s
    · simp only [passAux, if_pos hb] at h ⊢
      exact ih s h
    · by_cases hc : 0 ≤ m.body_parentid b ∧ (m.body_parentid b).toNat ∈ s
      · simp only [passAux, if_neg hb, if_pos hc]
        calc s.card < (insert b s).card := by
              rw [Finset.card_insert_of_not_mem hb]
              omega
          _ ≤ (passAux m bs (insert b s, true)).1.card :=
              Finset.card_le_card (passAux_mono m bs (insert b s) true)
      · simp only [passAux, if_neg hb, if_neg hc] at h ⊢
        exact ih s h

theorem passAux_empty_flag (m : MjModel) (l : List Nat) :
    (passAux m l ((∅ : Finset Nat), false)).2 = false := by
  induction l with
  | nil => rfl
  | cons b bs ih => simpa [passAux] using ih

theorem closurePass_mono (m : MjModel) (s : Finset Nat) :
    s ⊆ (closurePass m s).1 :=
  passAux_mono m (List.range m.nbody) s false

theorem closurePass_range (m : MjModel) (s : Finset Nat)
    (h : s ⊆ Finset.range m.nbody) :
    (closurePass m s).1 ⊆ Finset.range m.nbody := by
  refine (passAux_subset m (List.range m.nbody) s false).trans ?_
  intro x hx
  rcases Finset.mem_union.mp hx with h2 | h2
  · exact h h2
  · rw [List.mem_toFinset, List.mem_range] at h2
    exact Finset.mem_range.mpr h2

theorem closurePass_unproductive_eq (m : MjModel) (s : Finset Nat)
    (h : (closurePass m s).2 = false) : (closurePass m s).1 = s :=
  (passAux_unproductive m (List.range m.nbody) s h).1

theorem closurePass_unproductive_closed (m : MjModel) (s : Finset Nat)
    (h : (closurePass m s).2 = false) (b : Nat) (hb : b < m.nbody)
    (hp : 0 ≤ m.body_parentid b) (hm : (m.body_parentid b).toNat ∈ s) :
    b ∈ s :=
  (passAux_unproductive m (List.range m.nbody) s h).2 b
    (List.mem_range.mpr hb) hp hm

theorem closureLoop_mono (m : MjModel) (fuel : Nat) (s : Finset Nat) :
    s ⊆ closureLoop m fuel s := by
  induction fuel generalizing s with
  | zero => exact subset_refl s
  | succ n ih =>
    show s ⊆ (if (closurePass m s).2 then closureLoop m n (closurePass m s).1
             else (closurePass m s).1)
    by_cases h : (closurePass m s).2
    · rw [if_pos h]
      exact (closurePass_mono m s).trans (ih (closurePass m s).1)
    · rw [if_neg h]
      exact closurePass_mono m s

theorem closureLoop_fix (m : MjModel) (fuel : Nat) :
    ∀ s : Finset Nat, s ⊆ Finset.range m.nbody →
      m.nbody + 1 - s.card ≤ fuel →
      (closurePass m (closureLoop m fuel s)).2 = false := by
  induction fuel with
  | zero =>
    intro s hs hcard
    have h1 : s.card ≤ m.nbody := by
      simpa using Finset.card_le_card hs
    omega
  | succ n ih =>
    intro s hs hcard
    show (closurePass m (if (closurePass m s).2 then
        closureLoop m n (closurePass m s).1 else (closurePass m s).1)).2 = false
    by_cases h : (closurePass m s).2
    · rw [if_pos h]
      refine ih (closurePass m s).1 (closurePass_range m s hs) ?_
      have h2 : s.card < (closurePass m s).1.card :=
        passAux_productive_card m (List.range m.nbody) s h
      omega
    · rw [if_neg h]
      rw [closurePass_unproductive_eq m s (by simpa using h)]
      simpa using h

theorem body_closure_mono (m : MjModel) (init : Finset Nat) :
    init ⊆ body_closure m init :=
  closureLoop_mono m (m.nbody + 1) init

theorem closurePass_closureLoop_eq_false (m : MjModel) (init : Finset Nat)
    (h : init ⊆ Finset.range m.nbody) :
    (closurePass m (body_closure m init)).2 = false :=
  closureLoop_fix m (m.nbody + 1) init h (Nat.sub_le _ _)

theorem body_closure_closed (m : MjModel) (init : Finset Nat)
    (h : init ⊆ Finset.range m.nbody) (b : Nat) (hb : b < m.nbody)
    (hp : 0 ≤ m.body_parentid b)
    (hm : (m.body_parentid b).toNat ∈ body_closure m init) :
    b ∈ body_closure m init :=
  closurePass_unproductive_closed m (body_closure m init)
    (closurePass_closureLoop_eq_false m init h) b hb hp hm

theorem matched_bodies_subset_range (m : MjModel) (names : List (List Char)) :
    matched_bodies m names ⊆ Finset.range m.nbody :=
  Finset.filter_subset _ _

end EnclosingWall

namespace EnclosingWall

/-- Claim C3: if a body matches a wall name, then every descendant body (to
arbitrary nesting depth) ends up in the working body set computed by the
fixed-point pass, and every geom owned by such a descendant appears in the
resolved geometry set. -/
theorem c3_descendant_closure (m : MjModel) (names : List (List Char))
    (a b i : Nat) (hn : names ≠ []) (ha : a < m.nbody)
    (hm : body_matched m names a = true) (hd : Descendant m a b)
    (hi : i < m.ngeom) (hgb : m.geom_bodyid i = b) :
    b ∈ body_closure m (matched_bodies m names) ∧
      i ∈ match_geom_ids m names := by
  have hinit : matched_bodies m names ⊆ Finset.range m.nbody :=
    matched_bodies_subset_range m names
  have hamem : a ∈ body_closure m (matched_bodies m names) :=
    body_closure_mono m _
      (Finset.mem_filter.mpr ⟨Finset.mem_range.mpr ha, hm⟩)
  have hb : b ∈ body_closure m (matched_bodies m names) := by
    clear hgb hi i
    induction hd with
    | child c hc hp =>
      refine body_closure_closed m _ hinit c hc ?_ ?_
      · rw [hp]
        exact Int.ofNat_nonneg a
      · rw [hp]
        simpa using hamem
    | step c d hdd hcd hp ih =>
      refine body_closure_closed m _ hinit d hcd ?_ ?_
      · rw [hp]
        exact Int.ofNat_nonneg c
      · rw [hp]
        simpa using ih
  refine ⟨hb, ?_⟩
  have h2 : i ∈ (List.range m.ngeom).filter
      (fun j => geom_kept m names (body_closure m (matched_bodies m names)) j) := by
    refine List.mem_filter.mpr ⟨List.mem_range.mpr hi, ?_⟩
    simp only [geom_kept, Bool.or_eq_true, decide_eq_true_eq]
    exact Or.inl (by rw [hgb]; exact hb)
  simpa [match_geom_ids, hn] using h2

/-- Claim C3 witness: in the example model, body 0 is named wall, body 2 is
its grandchild through body 1, and geom 0 owned by body 2 is resolved. -/
theorem c3_witness :
    2 ∈ body_closure exampleMj (matched_bodies exampleMj ["wall".data]) ∧
    0 ∈ match_geom_ids exampleMj ["wall".data] :=
  c3_descendant_closure exampleMj ["wall".data] 0 2 0 (by decide) (by decide)
    (by decide)
    (Descendant.step 1 2 (Descendant.child 1 (by decide) (by decide))
      (by decide) (by decide))
    (by decide) (by decide)

/-- Claim C10: the descendant-closure fixed-point loop terminates: every
pass that raises the continuation flag strictly enlarges the working set,
the working set stays inside the body range, and some pass within the first
nbody iterations leaves the flag down. -/
theorem c10_closure_terminates (m : MjModel) (init : Finset Nat)
    (h : init ⊆ Finset.range m.nbody) :
    (∀ s : Finset Nat, (closurePass m s).2 = true →
        s.card < (closurePass m s).1.card ∧ s ⊂ (closurePass m s).1) ∧
    ∃ k, k ≤ m.nbody ∧ (closurePass m (passIter m init k)).2 = false := by
  constructor
  · intro s hs
    have h1 : s.card < (closurePass m s).1.card :=
      passAux_productive_card m (List.range m.nbody) s hs
    refine ⟨h1, ?_⟩
    rw [Finset.ssubset_def]
    refine ⟨closurePass_mono m s, fun hsub => ?_⟩
    have h2 := Finset.card_le_card hsub
    omega
  · by_cases hall : ∀ k, k ≤ m.nbody → (closurePass m (passIter m init k)).2 = true
    · have hgrow : ∀ k, k ≤ m.nbody → init.card + k ≤ (passIter m init k).card := by
        intro k
        induction k with
        | zero =>
          intro _
          simp [passIter]
        | succ n ih =>
          intro hk
          have h1 := ih (by omega)
          have h2 : (passIter m init n).card <
              (closurePass m (passIter m init n)).1.card :=
            passAux_productive_card m (List.range m.nbody)
              (passIter m init n) (hall n (by omega))
          show init.card + (n + 1) ≤ (closurePass m (passIter m init n)).1.card
          omega
      have hrange : ∀ k, passIter m init k ⊆ Finset.range m.nbody := by
        intro k
        induction k with
        | zero => exact h
        | succ n ih => exact closurePass_range m _ ih
      have hcard : (passIter m init m.nbody).card ≤ m.nbody := by
        simpa using Finset.card_le_card (hrange m.nbody)
      have h0 : init.card = 0 := by
        have h3 := hgrow m.nbody (le_refl _)
        omega
      have hinit0 : init = ∅ := Finset.card_eq_zero.mp h0
      have h1 := hall 0 (Nat.zero_le _)
      rw [show passIter m init 0 = init from rfl, hinit0] at h1
      have h2 : (closurePass m (∅ : Finset Nat)).2 = false :=
        passAux_empty_flag m (List.range m.nbody)
      rw [h2] at h1
      exact absurd h1 (by simp)
    · push_neg at hall
      obtain ⟨k, hk1, hk2⟩ := hall
      exact ⟨k, hk1, by simpa using hk2⟩

/-- Claim C10 witness: on the example model the initial matched set is in
range and the loop reaches an unproductive pass within nbody iterations. -/
theorem c10_witness :
    matched_bodies exampleMj ["wall".data] ⊆ Finset.range exampleMj.nbody ∧
    ∃ k, k ≤ exampleMj.nbody ∧
      (closurePass exampleMj
        (passIter exampleMj (matched_bodies exampleMj ["wall".data]) k)).2
        = false :=
  ⟨by decide,
   (c10_closure_terminates exampleMj (matched_bodies exampleMj ["wall".data])
      (by decide)).2⟩

end EnclosingWall

namespace EnclosingWall

theorem get_ids_state (ctx : EnvCtx) (w : WrapperState) :
    (get_enclosing_wall_geom_ids ctx w).2 =
      { w with geom_ids := Option.some (get_enclosing_wall_geom_ids ctx w).1 } := by
  obtain ⟨al, en, gi, sa, lp⟩ := w
  cases gi with
  | some g => rfl
  | none =>
    cases hs : ctx.sim with
    | none => simp [get_enclosing_wall_geom_ids, hs]
    | some sc =>
      cases hl : ctx.layout_id with
      | none => simp [get_enclosing_wall_geom_ids, hs, hl]
      | some lid =>
        cases hm : sc.model with
        | none => simp [get_enclosing_wall_geom_ids, hs, hl, hm]
        | some lm => simp [get_enclosing_wall_geom_ids, hs, hl, hm]

theorem get_ids_val_none (ctx : EnvCtx) (w : WrapperState)
    (h : w.geom_ids = Option.none) :
    (get_enclosing_wall_geom_ids ctx w).1 = resolvedGeoms ctx := by
  cases hs : ctx.sim with
  | none => simp [get_enclosing_wall_geom_ids, resolvedGeoms, h, hs]
  | some sc =>
    cases hl : ctx.layout_id with
    | none => simp [get_enclosing_wall_geom_ids, resolvedGeoms, h, hs, hl]
    | some lid =>
      cases hm : sc.model with
      | none => simp [get_enclosing_wall_geom_ids, resolvedGeoms, h, hs, hl, hm]
      | some lm => simp [get_enclosing_wall_geom_ids, resolvedGeoms, h, hs, hl, hm]

theorem get_ids_val_some (ctx : EnvCtx) (w : WrapperState) (g : List Nat)
    (h : w.geom_ids = Option.some g) :
    (get_enclosing_wall_geom_ids ctx w).1 = g := by
  simp [get_enclosing_wall_geom_ids, h]

theorem apply_write_post (ctx : EnvCtx) (alphas : Nat → ℚ) (w1 : WrapperState) :
    (apply_write ctx alphas w1).2.geom_ids =
      Option.some (get_enclosing_wall_geom_ids ctx w1).1 ∧
    (apply_write ctx alphas w1).2.enabled = w1.enabled ∧
    (apply_write ctx alphas w1).2.alpha = w1.alpha ∧
    (apply_write ctx alphas w1).2.last_model_ptr = w1.last_model_ptr ∧
    ∀ i ∈ (get_enclosing_wall_geom_ids ctx w1).1,
      (apply_write ctx alphas w1).1 i = if w1.enabled then w1.alpha else 1 := by
  have hst := get_ids_state ctx w1
  simp only [apply_write]
  by_cases hnil : (get_enclosing_wall_geom_ids ctx w1).1 = []
  · rw [if_pos hnil]
    refine ⟨by rw [hst], by rw [hst], by rw [hst], by rw [hst], ?_⟩
    intro i hi
    rw [hnil] at hi
    exact absurd hi (by simp)
  · rw [if_neg hnil]
    by_cases hen : w1.enabled = true
    · rw [if_pos (by rw [hst]; exact hen)]
      refine ⟨by simp [hst], by simp [hst], by simp [hst], by simp [hst], ?_⟩
      intro i hi
      simp [hst, hen, hi]
    · rw [if_neg (by rw [hst]; exact hen)]
      refine ⟨by simp [hst], by simp [hst], by simp [hst], by simp [hst], ?_⟩
      intro i hi
      simp [hst, hen, hi]

end EnclosingWall

namespace EnclosingWall

theorem ctxModel_some (ctx : EnvCtx) (lm : LiveModel)
    (h : ctxModel ctx = Option.some lm) :
    ∃ sc, ctx.sim = Option.some sc ∧ sc.model = Option.some lm := by
  unfold ctxModel at h
  cases hs : ctx.sim with
  | none =>
    rw [hs] at h
    exact absurd h (by simp)
  | some sc =>
    rw [hs] at h
    exact ⟨sc, rfl, h⟩

theorem ctxModel_none_iff (ctx : EnvCtx) :
    ctxModel ctx = Option.none ↔
      (ctx.sim = Option.none ∨
        ∃ sc, ctx.sim = Option.some sc ∧ sc.model = Option.none) := by
  unfold ctxModel
  cases hs : ctx.sim with
  | none => simp [hs]
  | some sc => simp [hs]

theorem apply_or_restore_no_model (ctx : EnvCtx) (st : OverlayState)
    (h : ctx.sim = Option.none ∨
      ∃ sc, ctx.sim = Option.some sc ∧ sc.model = Option.none) :
    apply_or_restore ctx st = st := by
  rcases h with h | ⟨sc, hs, hm⟩
  · simp only [apply_or_restore, h]
  · simp only [apply_or_restore, hs, hm]

theorem apply_none (ctx : EnvCtx) (st : OverlayState)
    (h : ctxModel ctx = Option.none) : apply_or_restore ctx st = st :=
  apply_or_restore_no_model ctx st ((ctxModel_none_iff ctx).mp h)

theorem apply_post (ctx : EnvCtx) (st : OverlayState) (lm : LiveModel)
    (h : ctxModel ctx = Option.some lm) :
    ∃ g, (apply_or_restore ctx st).2.geom_ids = Option.some g ∧
      (apply_or_restore ctx st).2.last_model_ptr = Option.some lm.ptr ∧
      (apply_or_restore ctx st).2.enabled = st.2.enabled ∧
      (apply_or_restore ctx st).2.alpha = st.2.alpha ∧
      ∀ i ∈ g, (apply_or_restore ctx st).1 i =
        if st.2.enabled then st.2.alpha else 1 := by
  obtain ⟨sc, hs, hm⟩ := ctxModel_some ctx lm h
  have heq : apply_or_restore ctx st = apply_write ctx st.1
      (if st.2.last_model_ptr = Option.some lm.ptr then st.2
       else { st.2 with geom_ids := Option.none, saved_alpha := [],
                        last_model_ptr := Option.some lm.ptr }) := by
    simp only [apply_or_restore, hs, hm]
  rw [heq]
  set w1 := (if st.2.last_model_ptr = Option.some lm.ptr then st.2
       else { st.2 with geom_ids := Option.none, saved_alpha := [],
                        last_model_ptr := Option.some lm.ptr }) with hw1
  obtain ⟨h1, h2, h3, h4, h5⟩ := apply_write_post ctx st.1 w1
  have hen : w1.enabled = st.2.enabled := by
    rw [hw1]
    by_cases hc : st.2.last_model_ptr = Option.some lm.ptr <;> simp [hc]
  have hal : w1.alpha = st.2.alpha := by
    rw [hw1]
    by_cases hc : st.2.last_model_ptr = Option.some lm.ptr <;> simp [hc]
  have hlp : w1.last_model_ptr = Option.some lm.ptr := by
    rw [hw1]
    by_cases hc : st.2.last_model_ptr = Option.some lm.ptr <;> simp [hc]
  refine ⟨(get_enclosing_wall_geom_ids ctx w1).1, h1, ?_, ?_, ?_, ?_⟩
  · rw [h4, hlp]
  · rw [h2, hen]
  · rw [h3, hal]
  · intro i hi
    rw [h5 i hi, hen, hal]

theorem apply_or_restore_enabled (ctx : EnvCtx) (st : OverlayState) :
    (apply_or_restore ctx st).2.enabled = st.2.enabled := by
  cases hc : ctxModel ctx with
  | none => rw [apply_none ctx st hc]
  | some lm =>
    obtain ⟨g, _, _, h3, _, _⟩ := apply_post ctx st lm hc
    exact h3

theorem set_enabled_enabled (ctx : EnvCtx) (st : OverlayState) (e : Bool) :
    (set_enabled ctx st e).2.enabled = e := by
  unfold set_enabled
  by_cases hc : e = st.2.enabled
  · rw [if_pos hc]
    exact hc.symm
  · rw [if_neg hc]
    rw [apply_or_restore_enabled]

theorem set_enabled_id (ctx : EnvCtx) (st : OverlayState) (e : Bool)
    (h : st.2.enabled = e) : set_enabled ctx st e = st := by
  unfold set_enabled
  rw [if_pos h.symm]

/-- Claim C6: enabling the overlay twice in a row yields exactly the same
state as enabling it once; the second set call, whose argument equals the
current enabled state, returns without mutating anything. -/
theorem c6_set_enabled_idempotent (ctx : EnvCtx) (st : OverlayState) :
    set_enabled ctx (set_enabled ctx st true) true = set_enabled ctx st true :=
  set_enabled_id ctx _ true (set_enabled_enabled ctx st true)

end EnclosingWall

namespace EnclosingWall

theorem set_enabled_neq (ctx : EnvCtx) (st : OverlayState) (e : Bool)
    (h : ¬(e = st.2.enabled)) :
    set_enabled ctx st e =
      apply_or_restore ctx (st.1, { st.2 with enabled := e }) := by
  unfold set_enabled
  rw [if_neg h]

/-- Claim C4: enabling then disabling the overlay leaves every geom of the
wrapper's resolved set at alpha exactly 1.0, regardless of the initial alpha
values; the restore writes the fixed opaque value rather than the saved
pre-enable values. -/
theorem c4_round_trip (ctx : EnvCtx) (lm : LiveModel) (st : OverlayState)
    (hm : ctxModel ctx = Option.some lm) (h0 : st.2.enabled = false) :
    (set_enabled ctx (set_enabled ctx st true) false).2.enabled = false ∧
    ∀ g, (set_enabled ctx (set_enabled ctx st true) false).2.geom_ids =
        Option.some g →
      ∀ i ∈ g, (set_enabled ctx (set_enabled ctx st true) false).1 i = 1 := by
  have he1 : (set_enabled ctx st true).2.enabled = true :=
    set_enabled_enabled ctx st true
  have hne : ¬((false : Bool) = (set_enabled ctx st true).2.enabled) := by
    rw [he1]
    simp
  have hstep := set_enabled_neq ctx (set_enabled ctx st true) false hne
  obtain ⟨g0, hg, hptr, hen, hal, hv⟩ := apply_post ctx
    ((set_enabled ctx st true).1,
     { (set_enabled ctx st true).2 with enabled := false }) lm hm
  constructor
  · rw [hstep, apply_or_restore_enabled]
  · intro g hg2 i hi
    rw [hstep] at hg2
    rw [hg] at hg2
    injection hg2 with hgg
    subst hgg
    rw [hstep]
    simpa using hv i hi

/-- Claim C4 witness: round trip on the example context from the fresh state
with every alpha initially one half. -/
theorem c4_witness :
    ctxModel exampleCtx = Option.some { ptr := 0, mj := exampleMj } ∧
    (exampleAlphas, freshW).2.enabled = false ∧
    ((set_enabled exampleCtx
        (set_enabled exampleCtx (exampleAlphas, freshW) true) false).2.enabled
        = false ∧
      ∀ g, (set_enabled exampleCtx
          (set_enabled exampleCtx (exampleAlphas, freshW) true) false).2.geom_ids
          = Option.some g →
        ∀ i ∈ g, (set_enabled exampleCtx
          (set_enabled exampleCtx (exampleAlphas, freshW) true) false).1 i = 1) :=
  ⟨rfl, rfl,
   c4_round_trip exampleCtx { ptr := 0, mj := exampleMj }
     (exampleAlphas, freshW) rfl rfl⟩

theorem saved_fold_mem (alphas : Nat → ℚ) (gids : List Nat) :
    ∀ (sa0 : List (Nat × ℚ)) (gi : Nat) (q : ℚ),
      (gi, q) ∈ gids.foldl
        (fun sa gi2 =>
          if (sa.lookup gi2).isSome then sa else sa ++ [(gi2, alphas gi2)])
        sa0 →
      (gi, q) ∈ sa0 ∨ (gi ∈ gids ∧ q = alphas gi) := by
  induction gids with
  | nil =>
    intro sa0 gi q h
    exact Or.inl h
  | cons g2 rest ih =>
    intro sa0 gi q h
    simp only [List.foldl_cons] at h
    rcases ih _ gi q h with h2 | h2
    · by_cases hl : (sa0.lookup g2).isSome
      · rw [if_pos hl] at h2
        exact Or.inl h2
      · rw [if_neg hl] at h2
        rcases List.mem_append.mp h2 with h3 | h3
        · exact Or.inl h3
        · have h4 : gi = g2 ∧ q = alphas g2 := by
            simpa using h3
          refine Or.inr ⟨by simp [h4.1], ?_⟩
          rw [h4.2, h4.1]
    · exact Or.inr ⟨List.mem_cons_of_mem _ h2.1, h2.2⟩

theorem apply_write_saved (ctx : EnvCtx) (alphas : Nat → ℚ)
    (w1 : WrapperState) (hsa : w1.saved_alpha = []) (gi : Nat) (q : ℚ)
    (h : (gi, q) ∈ (apply_write ctx alphas w1).2.saved_alpha) :
    gi ∈ (get_enclosing_wall_geom_ids ctx w1).1 ∧ q = alphas gi := by
  have hst := get_ids_state ctx w1
  revert h
  simp only [apply_write]
  by_cases hnil : (get_enclosing_wall_geom_ids ctx w1).1 = []
  · rw [if_pos hnil]
    intro h
    rw [hst] at h
    simp [hsa] at h
  · rw [if_neg hnil]
    by_cases hen : w1.enabled = true
    · rw [if_pos (by rw [hst]; exact hen)]
      intro h
      have h2 := saved_fold_mem alphas (get_enclosing_wall_geom_ids ctx w1).1
        ((get_enclosing_wall_geom_ids ctx w1).2.saved_alpha) gi q h
      rcases h2 with h3 | h3
      · rw [hst] at h3
        simp [hsa] at h3
      · exact h3
    · rw [if_neg (by rw [hst]; exact hen)]
      intro h
      simp at h

/-- Claim C8: a scene-graph identity change while enabled makes the next
apply-or-restore adopt the new identity token, re-resolve the geometry set
against the new model instead of reusing the stale cache, re-apply the
overlay alpha to the newly resolved set, and rebuild the saved-alpha map
from the new set only. -/
theorem c8_reload_invalidation (ctx : EnvCtx) (st : OverlayState)
    (lm : LiveModel) (p : Nat) (hs : ctxModel ctx = Option.some lm)
    (he : st.2.enabled = true) (hp : st.2.last_model_ptr = Option.some p)
    (hne : p ≠ lm.ptr) :
    (apply_or_restore ctx st).2.last_model_ptr = Option.some lm.ptr ∧
    (apply_or_restore ctx st).2.geom_ids = Option.some (resolvedGeoms ctx) ∧
    (∀ i ∈ resolvedGeoms ctx, (apply_or_restore ctx st).1 i = st.2.alpha) ∧
    ∀ gi q, (gi, q) ∈ (apply_or_restore ctx st).2.saved_alpha →
      gi ∈ resolvedGeoms ctx ∧ q = st.1 gi := by
  obtain ⟨sc, hsim, hmod⟩ := ctxModel_some ctx lm hs
  have hcond : ¬(st.2.last_model_ptr = Option.some lm.ptr) := by
    rw [hp]
    simp [hne]
  have heq : apply_or_restore ctx st = apply_write ctx st.1
      { st.2 with geom_ids := Option.none, saved_alpha := [],
                  last_model_ptr := Option.some lm.ptr } := by
    simp only [apply_or_restore, hsim, hmod, if_neg hcond]
  set w1 : WrapperState :=
    { st.2 with geom_ids := Option.none, saved_alpha := [],
                last_model_ptr := Option.some lm.ptr } with hw1
  have hres : (get_enclosing_wall_geom_ids ctx w1).1 = resolvedGeoms ctx :=
    get_ids_val_none ctx w1 (by rw [hw1])
  obtain ⟨h1, h2, h3, h4, h5⟩ := apply_write_post ctx st.1 w1
  refine ⟨?_, ?_, ?_, ?_⟩
  · rw [heq, h4, hw1]
  · rw [heq, h1, hres]
  · intro i hi
    rw [← hres] at hi
    rw [heq, h5 i hi]
    have hen1 : w1.enabled = true := by
      rw [hw1]
      exact he
    have hal1 : w1.alpha = st.2.alpha := by
      rw [hw1]
    rw [hen1, hal1]
    simp
  · intro gi q hmem
    rw [heq] at hmem
    have h6 := apply_write_saved ctx st.1 w1 (by rw [hw1]) gi q hmem
    rw [hres] at h6
    exact h6

/-- Claim C8 witness: the example context's model has token 0 while the
stale wrapper state remembers token 99; the next apply adopts token 0 and
caches the freshly resolved set. -/
theorem c8_witness :
    (apply_or_restore exampleCtx (exampleAlphas, staleW)).2.last_model_ptr =
      Option.some ({ ptr := 0, mj := exampleMj } : LiveModel).ptr ∧
    (apply_or_restore exampleCtx (exampleAlphas, staleW)).2.geom_ids =
      Option.some (resolvedGeoms exampleCtx) :=
  ⟨(c8_reload_invalidation exampleCtx (exampleAlphas, staleW)
      { ptr := 0, mj := exampleMj } 99 rfl rfl rfl (by decide)).1,
   (c8_reload_invalidation exampleCtx (exampleAlphas, staleW)
      { ptr := 0, mj := exampleMj } 99 rfl rfl rfl (by decide)).2.1⟩

end EnclosingWall

namespace EnclosingWall

theorem get_ids_no_layout (ctx : EnvCtx) (w : WrapperState)
    (hl : ctx.layout_id = Option.none) (hw : w.geom_ids = Option.none) :
    get_enclosing_wall_geom_ids ctx w =
      ([], { w with geom_ids := Option.some [] }) := by
  cases hs : ctx.sim with
  | none => simp [get_enclosing_wall_geom_ids, hw, hs]
  | some sc => simp [get_enclosing_wall_geom_ids, hw, hs, hl]

theorem apply_write_empty (ctx : EnvCtx) (alphas : Nat → ℚ)
    (w1 : WrapperState)
    (h : get_enclosing_wall_geom_ids ctx w1 =
      ([], { w1 with geom_ids := Option.some [] })) :
    apply_write ctx alphas w1 = (alphas, { w1 with geom_ids := Option.some [] }) := by
  simp [apply_write, h]

/-- Claim C9: with no live scene-graph handle (no sim, or sim.model None)
the overlay operations are silent no-ops leaving the alpha buffer untouched,
and with the layout identifier unavailable the resolver caches the empty
wall-derived geometry set and apply-or-restore leaves the buffer untouched. -/
theorem c9_missing_context (ctx : EnvCtx) (st : OverlayState) (e : Bool) :
    ((ctx.sim = Option.none ∨
        ∃ sc, ctx.sim = Option.some sc ∧ sc.model = Option.none) →
      apply_or_restore ctx st = st ∧ (set_enabled ctx st e).1 = st.1 ∧
        (toggle ctx st).1 = st.1) ∧
    (ctx.layout_id = Option.none → st.2.geom_ids = Option.none →
      (apply_or_restore ctx st).1 = st.1 ∧
        ((apply_or_restore ctx st).2.geom_ids = Option.none ∨
          (apply_or_restore ctx st).2.geom_ids = Option.some [])) := by
  constructor
  · intro h
    have ha : ∀ st2 : OverlayState, apply_or_restore ctx st2 = st2 :=
      fun st2 => apply_or_restore_no_model ctx st2 h
    refine ⟨ha st, ?_, ?_⟩
    · unfold set_enabled
      by_cases hc : e = st.2.enabled
      · rw [if_pos hc]
      · rw [if_neg hc, ha _]
    · unfold toggle set_enabled
      by_cases hc : (!st.2.enabled) = st.2.enabled
      · rw [if_pos hc]
      · rw [if_neg hc, ha _]
  · intro hl hg
    cases hcm : ctxModel ctx with
    | none =>
      rw [apply_none ctx st hcm]
      exact ⟨rfl, Or.inl hg⟩
    | some lm =>
      obtain ⟨sc, hsim, hmod⟩ := ctxModel_some ctx lm hcm
      have heq : apply_or_restore ctx st = apply_write ctx st.1
          (if st.2.last_model_ptr = Option.some lm.ptr then st.2
           else { st.2 with geom_ids := Option.none, saved_alpha := [],
                            last_model_ptr := Option.some lm.ptr }) := by
        simp only [apply_or_restore, hsim, hmod]
      set w1 := (if st.2.last_model_ptr = Option.some lm.ptr then st.2
           else { st.2 with geom_ids := Option.none, saved_alpha := [],
                            last_model_ptr := Option.some lm.ptr }) with hw1
      have hw1g : w1.geom_ids = Option.none := by
        rw [hw1]
        by_cases hc : st.2.last_model_ptr = Option.some lm.ptr <;>
          simp [hc, hg]
      have hget := get_ids_no_layout ctx w1 hl hw1g
      rw [heq, apply_write_empty ctx st.1 w1 hget]
      exact ⟨rfl, Or.inr rfl⟩

/-- Claim C9 witness: with neither sim nor layout id, apply-or-restore is a
no-op on the fresh state and so are set and toggle on the buffer. -/
theorem c9_witness :
    (apply_or_restore emptyCtx (exampleAlphas, freshW) =
        (exampleAlphas, freshW) ∧
      (set_enabled emptyCtx (exampleAlphas, freshW) true).1 = exampleAlphas ∧
      (toggle emptyCtx (exampleAlphas, freshW)).1 = exampleAlphas) ∧
    ((apply_or_restore emptyCtx (exampleAlphas, freshW)).1 = exampleAlphas ∧
      ((apply_or_restore emptyCtx (exampleAlphas, freshW)).2.geom_ids =
          Option.none ∨
        (apply_or_restore emptyCtx (exampleAlphas, freshW)).2.geom_ids =
          Option.some [])) :=
  ⟨(c9_missing_context emptyCtx (exampleAlphas, freshW) true).1 (Or.inl rfl),
   (c9_missing_context emptyCtx (exampleAlphas, freshW) true).2 rfl rfl⟩

/-- Claim C5: when both pending flags are set, consume_pending returns true,
clears both flags, and leaves the overlay disabled: the force-opaque request
wins over the queued toggle regardless of the order the flags were raised. -/
theorem c5_force_precedence (ctx : EnvCtx)
    (redraw : OverlayState → OverlayState) (ls : LoopState)
    (hf : ls.force_opaque_requested = true) (ht : ls.toggle_requested = true)
    (hr : ∀ ov, (redraw ov).2.enabled = ov.2.enabled) :
    (consume_pending ctx redraw ls).2 = true ∧
    (consume_pending ctx redraw ls).1.force_opaque_requested = false ∧
    (consume_pending ctx redraw ls).1.toggle_requested = false ∧
    ∀ ov, (consume_pending ctx redraw ls).1.overlay = Option.some ov →
      ov.2.enabled = false := by
  have hcond : ¬(ls.force_opaque_requested = false ∧
      ls.toggle_requested = false) := by
    rw [hf]
    simp
  simp only [consume_pending, if_neg hcond, hf, if_true]
  refine ⟨rfl, rfl, rfl, ?_⟩
  intro ov hov
  cases ho : ls.overlay with
  | none =>
    rw [ho] at hov
    exact absurd hov (by simp)
  | some ov0 =>
    rw [ho] at hov
    simp at hov
    rw [← hov, hr]
    exact set_enabled_enabled ctx ov0 false

/-- Claim C5 witness: both flags raised over the example overlay with the
identity redraw. -/
theorem c5_witness :
    (consume_pending exampleCtx id
        { force_opaque_requested := true, toggle_requested := true,
          overlay := Option.some (exampleAlphas, freshW) }).2 = true ∧
    (consume_pending exampleCtx id
        { force_opaque_requested := true, toggle_requested := true,
          overlay := Option.some (exampleAlphas, freshW) }).1.force_opaque_requested
      = false ∧
    (consume_pending exampleCtx id
        { force_opaque_requested := true, toggle_requested := true,
          overlay := Option.some (exampleAlphas, freshW) }).1.toggle_requested
      = false ∧
    ∀ ov, (consume_pending exampleCtx id
        { force_opaque_requested := true, toggle_requested := true,
          overlay := Option.some (exampleAlphas, freshW) }).1.overlay =
        Option.some ov → ov.2.enabled = false :=
  c5_force_precedence exampleCtx id
    { force_opaque_requested := true, toggle_requested := true,
      overlay := Option.some (exampleAlphas, freshW) }
    rfl rfl (fun _ => rfl)

/-- Claim C7: the layout registry returns exactly the names of wall records
whose enclosing flag is present and exactly the boolean True (missing room
or walls collections count as empty), and a layout with no such wall makes
the geometry resolver return the empty set. -/
theorem c7_registry (ld : LayoutData) :
    (∀ n, n ∈ get_enclosing_wall_names_from_layout ld ↔
      ∃ w, w ∈ wallsOf ld ∧
        w.enclosing_wall = Option.some (PyVal.vbool true) ∧ w.name = n) ∧
    ∀ m : MjModel,
      (∀ w ∈ wallsOf ld, w.enclosing_wall ≠ Option.some (PyVal.vbool true)) →
      match_geom_ids m (get_enclosing_wall_names_from_layout ld) = [] := by
  constructor
  · intro n
    simp only [get_enclosing_wall_names_from_layout, List.mem_map,
      List.mem_filter, decide_eq_true_eq]
    constructor
    · rintro ⟨w, ⟨hw, hflag⟩, rfl⟩
      exact ⟨w, hw, hflag, rfl⟩
    · rintro ⟨w, hw, hflag, rfl⟩
      exact ⟨w, ⟨hw, hflag⟩, rfl⟩
  · intro m hnone
    have hn : get_enclosing_wall_names_from_layout ld = [] := by
      unfold get_enclosing_wall_names_from_layout
      rw [List.filter_eq_nil_iff.mpr ?_]
      · rfl
      intro w hw
      simpa using hnone w hw
    rw [hn]
    rfl

/-- Claim C7 witness: a wall flagged with the truthy integer 1 is excluded,
so the registry yields no names and the resolver yields the empty set on the
example model. -/
theorem c7_witness :
    (∀ w ∈ wallsOf truthyLayout,
      w.enclosing_wall ≠ Option.some (PyVal.vbool true)) ∧
    match_geom_ids exampleMj
      (get_enclosing_wall_names_from_layout truthyLayout) = [] :=
  ⟨by decide, (c7_registry truthyLayout).2 exampleMj (by decide)⟩

end EnclosingWall

namespace EnclosingWall

theorem inv_apply (ctx : EnvCtx) (st : OverlayState)
    (h : ∀ g, st.2.geom_ids = Option.some g → g ≠ [] →
      ∃ lm, ctxModel ctx = Option.some lm) :
    Inv ctx (apply_or_restore ctx st) := by
  cases hcm : ctxModel ctx with
  | none =>
    rw [apply_none ctx st hcm]
    intro g hg
    refine ⟨h g hg, ?_⟩
    intro i hi
    have hg0 : g = [] := by
      by_contra hne
      obtain ⟨lm, hlm⟩ := h g hg hne
      rw [hcm] at hlm
      exact absurd hlm (by simp)
    rw [hg0] at hi
    exact absurd hi (by simp)
  | some lm =>
    obtain ⟨g0, h1, h2, h3, h4, h5⟩ := apply_post ctx st lm hcm
    intro g hg
    rw [h1] at hg
    injection hg with hgg
    subst hgg
    refine ⟨fun _ => ⟨lm, hcm⟩, ?_⟩
    intro i hi
    rw [h3, h4]
    exact h5 i hi

theorem inv_set_enabled (ctx : EnvCtx) (st : OverlayState) (e : Bool)
    (h : Inv ctx st) : Inv ctx (set_enabled ctx st e) := by
  unfold set_enabled
  by_cases hc : e = st.2.enabled
  · rw [if_pos hc]
    exact h
  · rw [if_neg hc]
    apply inv_apply
    intro g hg hne
    exact (h g hg).1 hne

theorem inv_reach (ctx : EnvCtx) (st : OverlayState) (h : Reach ctx st) :
    Inv ctx st := by
  induction h with
  | init ctx alphas alpha e =>
    apply inv_set_enabled
    intro g hg
    exact absurd hg (by simp)
  | set ctx st e hr ih =>
    exact inv_set_enabled ctx st e ih
  | tog ctx st hr ih =>
    exact inv_set_enabled ctx st (!st.2.enabled) ih
  | vis ctx st envVis hr ih =>
    apply inv_apply
    intro g hg hne
    exact (ih g hg).1 hne
  | rst ctx ctx2 st alphas2 hr ih =>
    by_cases he : st.2.enabled = true
    · have hres : resetW ctx2 alphas2 st.2 = apply_or_restore ctx2
          (alphas2, { st.2 with geom_ids := Option.none, saved_alpha := [], last_model_ptr := Option.none }) := by
        simp [resetW, he]
      rw [hres]
      apply inv_apply
      intro g hg
      exact absurd hg (by simp)
    · have hres : resetW ctx2 alphas2 st.2 = (alphas2,
          { st.2 with geom_ids := Option.none, saved_alpha := [], last_model_ptr := Option.none }) := by
        simp [resetW, he]
      rw [hres]
      intro g hg
      exact absurd hg (by simp)

/-- Claim C1: in every reachable wrapper state, whenever the cached resolved
enclosing-wall set (the Resolved Geometry Set of the overlay session state)
is populated, each of its geom indices carries alpha equal to the configured
overlay alpha while enabled and alpha exactly 1.0 while disabled; right
after construction with the default enabled false, and after a reset while
disabled, the cache is empty and the invariant is vacuous. -/
theorem c1_overlay_invariant (ctx : EnvCtx) (st : OverlayState)
    (h : Reach ctx st) (g : List Nat) (hg : st.2.geom_ids = Option.some g)
    (i : Nat) (hi : i ∈ g) :
    st.1 i = if st.2.enabled then st.2.alpha else 1 :=
  (inv_reach ctx st h g hg).2 i hi

/-- Claim C1 witness: constructing the wrapper enabled over the example
context resolves geom 0 and writes the overlay alpha to it. -/
theorem c1_witness :
    (wrapper_init exampleCtx exampleAlphas (1 / 10) true).2.geom_ids =
      Option.some [0] ∧
    (wrapper_init exampleCtx exampleAlphas (1 / 10) true).1 0 =
      (if (wrapper_init exampleCtx exampleAlphas (1 / 10) true).2.enabled then
        (wrapper_init exampleCtx exampleAlphas (1 / 10) true).2.alpha
      else 1) :=
  ⟨by decide,
   c1_overlay_invariant exampleCtx
     (wrapper_init exampleCtx exampleAlphas (1 / 10) true)
     (Reach.init exampleCtx exampleAlphas (1 / 10) true) [0] (by decide) 0
     (by decide)⟩

end EnclosingWall
